import Mathlib

/-
Verification of the analysis/summary engine of the peregrine-backend
scouting service: the team-match Aggregator (selectTeamMatches) and the
eventStats handler loop are embedded from the Go source in src/unnamed/part_000;
the internal/summary package (Field Evaluator and Team Summarizer) is not
present under src/, so it is modelled from the specification (spec.md §3,
§4.1, §4.3, §7).  Numeric values are modelled as rationals.
-/

namespace Peregrine

/-- Sequence a fallible computation over a list, failing fast at the first
error: the `Except` analogue of the sequential loops in the Go code. -/
def exceptMap (g : α → Except ε β) : List α → Except ε (List β)
  | [] => .ok []
  | a :: as =>
    match g a with
    | .error e => .error e
    | .ok b =>
      match exceptMap g as with
      | .error e => .error e
      | .ok bs => .ok (b :: bs)

/-- Extract the payload of `g a` when it is `ok`, with default `d` otherwise. -/
def okVal (g : α → Except ε β) (d : β) (a : α) : β :=
  match g a with
  | .ok b => b
  | .error _ => d

/-- Decidable equality for Except, so concrete evaluator results can be
checked by decide. -/
instance instDecEqExcept [DecidableEq ε] [DecidableEq α] : DecidableEq (Except ε α) :=
  fun x y =>
    match x, y with
    | .ok a, .ok b =>
      match decEq a b with
      | isTrue h => isTrue (by rw [h])
      | isFalse h => isFalse (by intro hc; injection hc; contradiction)
    | .error e, .error f =>
      match decEq e f with
      | isTrue h => isTrue (by rw [h])
      | isFalse h => isFalse (by intro hc; injection hc; contradiction)
    | .ok _, .error _ => isFalse (by intro hc; exact Except.noConfusion hc)
    | .error _, .ok _ => isFalse (by intro hc; exact Except.noConfusion hc)

namespace summary

/-- Modelled from the spec: tagged value type for raw report fields and
ScoreBreakdown entries (spec §3 and §9: number, boolean, or string; absence
is represented by `Option` at use sites).  The internal/summary package is
absent from src/. -/
inductive Value where
  | num (q : ℚ)
  | boolean (b : Bool)
  | str (s : String)
deriving DecidableEq

/-- Modelled from the spec: externally supplied mapping of field name to
value, one per alliance per match (spec §3). -/
abbrev ScoreBreakdown := List (String × Value)

/-- Mirrors summary.ReportField from the Go source (Name, Value pair). -/
structure ReportField where
  name : String
  value : Value
deriving DecidableEq

/-- Mirrors summary.Report: one scout's ordered list of field entries. -/
abbrev Report := List ReportField

/-- Mirrors summary.Match from the Go source (src/unnamed/part_000: the
Observation built by selectTeamMatches — alliance position, the relevant
alliance's ScoreBreakdown, and the team's reports for that match). -/
structure Match where
  key : String
  robotPosition : Nat
  scoreBreakdown : ScoreBreakdown
  reports : List Report
deriving DecidableEq

/-- Modelled from the spec: the four SchemaField variants, an explicit closed
tagged union as §3/§9 describe (ReportRef, TBARef, Sum, AnyOf). -/
inductive FieldVariant where
  | reportRef (name : String)
  | tbaRef (name : String)
  | sum (names : List String)
  | anyOf (conds : List (String × Value))
deriving DecidableEq

/-- Modelled from the spec: a schema field is a name plus exactly one
variant (spec §3). -/
structure SchemaField where
  name : String
  variant : FieldVariant
deriving DecidableEq

/-- Modelled from the spec: a Schema is an ordered sequence of fields. -/
abbrev Schema := List SchemaField

/-- Modelled from the spec: SchemaIntegrityError — a reference to an
undefined field name (spec §7), carrying the offending name. -/
inductive SchemaErr where
  | integrity (name : String)
deriving DecidableEq

/-- Numeric reading of a value: numbers pass through, booleans coerce to
1/0, strings (which §4.1 only ever compares for equality) read as 0. -/
def toNum : Value → ℚ
  | .num q => q
  | .boolean b => if b then 1 else 0
  | .str _ => 0

/-- Modelled from the spec: absent values are treated as 0 (spec §4.1 Sum
semantics, §8 orZero). -/
def orZero : Option Value → ℚ
  | none => 0
  | some v => toNum v

/-- Occurrence count of a value in a list of collected report values. -/
def countV (vals : List Value) (v : Value) : Nat :=
  (vals.filter (fun w => w = v)).length

/-- Modelled from the spec: the mode of the collected values, ties broken by
first-seen order (spec §4.1) — the first value attaining the maximal
occurrence count. -/
def modeV (vals : List Value) : Option Value :=
  vals.argmax (countV vals)

/-- Modelled from the spec: collect `name`'s value from every report attached
to the observation (spec §4.1); a report lacking the field contributes
nothing. -/
def collectValues (name : String) (reports : List Report) : List Value :=
  reports.filterMap (fun r => (r.find? (fun fld => fld.name == name)).map ReportField.value)

/-- Lookup of a raw name in a ScoreBreakdown (first binding wins). -/
def tbaLookup (name : String) (sb : ScoreBreakdown) : Option Value :=
  (sb.find? (fun p => p.1 == name)).map Prod.snd

/-- Modelled from the spec: TBARef coercion — booleans become 1/0, numeric
values pass through (spec §4.1). -/
def tbaCoerce : Value → Value
  | .boolean b => .num (if b then 1 else 0)
  | v => v

/-- Resolve a referenced field name against the schema (first match wins;
schema field names are unique per §3). -/
def lookupField (schema : Schema) (name : String) : Option SchemaField :=
  schema.find? (fun f => f.name == name)

/-- Modelled from the spec: the Field Evaluator (spec §4.1).  `fuel` bounds
the transitive reference depth through Sum/AnyOf; exhaustion (a cyclic
schema) is reported as a SchemaIntegrityError.  A referenced name that does
not resolve to a schema field is a SchemaIntegrityError, never silently 0. -/
def evalField (schema : Schema) : Nat → SchemaField → Match → Except SchemaErr (Option Value)
  | 0, f, _ => .error (.integrity f.name)
  | fuel + 1, f, obs =>
    match f.variant with
    | .reportRef name => .ok (modeV (collectValues name obs.reports))
    | .tbaRef name => .ok ((tbaLookup name obs.scoreBreakdown).map tbaCoerce)
    | .sum names =>
      match exceptMap (fun n =>
          match lookupField schema n with
          | none => .error (.integrity n)
          | some g => evalField schema fuel g obs) names with
      | .error e => .error e
      | .ok rs => .ok (some (.num ((rs.map orZero).sum)))
    | .anyOf conds =>
      match exceptMap (fun c =>
          match lookupField schema c.1 with
          | none => .error (.integrity c.1)
          | some g =>
            match evalField schema fuel g obs with
            | .error e => .error e
            | .ok r => .ok (decide (r = some c.2))) conds with
      | .error e => .error e
      | .ok bs => .ok (some (.num (if bs.any id then 1 else 0)))

/-- Maximum of a list of rationals, 0 when the list is empty (spec §4.3). -/
def listMax : List ℚ → ℚ
  | [] => 0
  | v :: rest => rest.foldl max v

/-- Modelled from the spec: evaluate one field over every observation and
keep the present (non-absent) values, numerically (spec §4.3). -/
def presentValues (schema : Schema) (fuel : Nat) (f : SchemaField) (obsList : List Match) :
    Except SchemaErr (List ℚ) :=
  match exceptMap (fun obs => evalField schema fuel f obs) obsList with
  | .error e => .error e
  | .ok rs => .ok ((rs.filterMap id).map toNum)

/-- Mirrors summary.Stat: name, max and average for one schema field. -/
structure Stat where
  name : String
  max : ℚ
  average : ℚ
deriving DecidableEq

/-- Mirrors summary.Summary: one Stat per schema field, in schema order. -/
abbrev Summary := List Stat

/-- Modelled from the spec: the per-field statistic — max of present values
(0 when none) and arithmetic mean sum/count (0 when none) (spec §4.3). -/
def fieldStat (schema : Schema) (fuel : Nat) (f : SchemaField) (obsList : List Match) :
    Except SchemaErr Stat :=
  match presentValues schema fuel f obsList with
  | .error e => .error e
  | .ok vals =>
    .ok { name := f.name
        , max := listMax vals
        , average := if vals.length = 0 then 0 else vals.sum / (vals.length : ℚ) }

/-- Modelled from the spec: SummarizeTeam (spec §4.3) — one Stat per schema
field in schema order, aborting at the first SchemaIntegrityError.  The fuel
`schema.length + 1` covers every acyclic reference chain. -/
def SummarizeTeam (schema : Schema) (obsList : List Match) : Except SchemaErr Summary :=
  exceptMap (fun f => fieldStat schema (schema.length + 1) f obsList) schema

end summary

namespace store

/-- Mirrors store.Report (src/unnamed/part_003): teamKey, matchKey and the
ordered data entries.  The Go conversion to summary.ReportField copies the
name/value pairs unchanged, so the same field type is used. -/
structure Report where
  teamKey : String
  matchKey : String
  data : List summary.ReportField
deriving DecidableEq

/-- Mirrors store.Match restricted to the fields the analysis reads
(src/unnamed/part_003: key, alliances, score breakdowns). -/
structure Match where
  key : String
  redAlliance : List String
  blueAlliance : List String
  redScoreBreakdown : summary.ScoreBreakdown
  blueScoreBreakdown : summary.ScoreBreakdown
deriving DecidableEq

end store

namespace server

/-- Embeds the report indexing of selectTeamMatches (src/unnamed/part_000):
teamToMatchToReports[team][matchKey] holds the summary.Report conversions of
the reports with that team and match key, in submission order. -/
def reportsIndex (reports : List store.Report) (team matchKey : String) : List summary.Report :=
  (reports.filter (fun r => r.teamKey == team && r.matchKey == matchKey)).map store.Report.data

/-- Embeds the body of the per-match loop of selectTeamMatches
(src/unnamed/part_000 lines 202-220): one entry per participant at running
index `i` over red-then-blue, with position (i mod R) + 1 and the
colour-matching breakdown. -/
def entriesFrom (m : store.Match) (rIdx : String → String → List summary.Report) :
    Nat → List String → List (String × summary.Match)
  | _, [] => []
  | i, team :: rest =>
    (team,
      { key := m.key
      , robotPosition := i % m.redAlliance.length + 1
      , scoreBreakdown :=
          if i < m.redAlliance.length then m.redScoreBreakdown else m.blueScoreBreakdown
      , reports := rIdx team m.key }) :: entriesFrom m rIdx (i + 1) rest

/-- Embeds one iteration of the outer match loop of selectTeamMatches.  Go
evaluates `i % len(RedAlliance)` on the first participant, which aborts the
program (integer division by zero) when the red alliance is empty while
participants exist; that abort is modelled as `none`. -/
def matchEntries (m : store.Match) (rIdx : String → String → List summary.Report) :
    Option (List (String × summary.Match)) :=
  if m.redAlliance ++ m.blueAlliance = [] then some []
  else if m.redAlliance.length = 0 then none
  else some (entriesFrom m rIdx 0 (m.redAlliance ++ m.blueAlliance))

/-- All (team, observation) entries over a list of matches, in match order,
aborting when any match aborts. -/
def collectEntries (rIdx : String → String → List summary.Report) :
    List store.Match → Option (List (String × summary.Match))
  | [] => some []
  | m :: rest =>
    match matchEntries m rIdx with
    | none => none
    | some es =>
      match collectEntries rIdx rest with
      | none => none
      | some more => some (es ++ more)

/-- Embeds selectTeamMatches (src/unnamed/part_000 lines 181-223).  The Go
map from team to its observation list is modelled as a function with []
default (a Go lookup of a missing key yields nil); `none` models the
division-by-zero abort. -/
def selectTeamMatches (storeMatches : List store.Match) (reports : List store.Report) :
    Option (String → List summary.Match) :=
  match collectEntries (reportsIndex reports) storeMatches with
  | none => none
  | some es => some (fun t => (es.filter (fun e => e.1 == t)).map Prod.snd)

/-- Mirrors the teamAnalysis response shape (team plus its summary stats). -/
structure teamAnalysis where
  team : String
  summaryStats : List summary.Stat
deriving DecidableEq

/-- Mirrors teamAnalysisFromSummary: the Go loop copies each Stat field-wise
into a summaryStat with identical fields, so the copy is the identity. -/
def teamAnalysisFromSummary (s : summary.Summary) (team : String) : teamAnalysis :=
  { team := team, summaryStats := s }

/-- Embeds the eventStats summarization loop (src/unnamed/part_000 lines
80-92).  Go ranges over the teamToMatches map in an order the language
leaves unspecified; `order` makes that iteration order explicit — a run of
the program corresponds to some permutation of the key set.  The loop stops
at the first failing team. -/
def eventStats (schema : summary.Schema) (storeMatches : List store.Match)
    (reports : List store.Report) (order : List String) :
    Option (Except summary.SchemaErr (List teamAnalysis)) :=
  match selectTeamMatches storeMatches reports with
  | none => none
  | some f => some (exceptMap (fun t =>
      match summary.SummarizeTeam schema (f t) with
      | .error e => .error e
      | .ok s => .ok (teamAnalysisFromSummary s t)) order)

end server

/- Concrete example inputs used by the witness theorems below. -/

/-- Example match with the alliances of the spec positioning example
(redAlliance A,B,C; blueAlliance D,E,F). -/
def c1ExMatch : store.Match :=
  { key := "m1"
  , redAlliance := ["A", "B", "C"]
  , blueAlliance := ["D", "E", "F"]
  , redScoreBreakdown := [("score", .num 10)]
  , blueScoreBreakdown := [("score", .num 20)] }

/-- Example match with one red and one blue team. -/
def c8ExMatch : store.Match :=
  { key := "m1", redAlliance := ["A"], blueAlliance := ["B"]
  , redScoreBreakdown := [], blueScoreBreakdown := [] }

/-- The team-to-observations function the aggregator produces on c8ExMatch
with no reports. -/
def c8ExF : String → List summary.Match :=
  fun t =>
    (([("A", { key := "m1", robotPosition := 1, scoreBreakdown := [], reports := [] }),
       ("B", { key := "m1", robotPosition := 1, scoreBreakdown := [], reports := [] })] :
        List (String × summary.Match)).filter (fun e => e.1 == t)).map Prod.snd

/-- One-field schema reading the raw "score" breakdown entry. -/
def c5ExSchema : summary.Schema := [{ name := "score", variant := .tbaRef "score" }]

/-- Observation with a numeric breakdown score of 10. -/
def c5ExObs1 : summary.Match :=
  { key := "m1", robotPosition := 1, scoreBreakdown := [("score", .num 10)], reports := [] }

/-- Observation with a numeric breakdown score of 20. -/
def c5ExObs2 : summary.Match :=
  { key := "m2", robotPosition := 1, scoreBreakdown := [("score", .num 20)], reports := [] }

/-- Schema with two raw fields and their Sum. -/
def c2ExSchema : summary.Schema :=
  [ { name := "x", variant := .tbaRef "x" }
  , { name := "y", variant := .tbaRef "y" }
  , { name := "s", variant := .sum ["x", "y"] } ]

/-- Observation carrying breakdown entries x = 3 and y = 4. -/
def c2ExObs : summary.Match :=
  { key := "m1", robotPosition := 1
  , scoreBreakdown := [("x", .num 3), ("y", .num 4)], reports := [] }

/-- Observation with three reports for the mode example: two reports give
field "x" the value 3, one gives it 5. -/
def c3ExObs : summary.Match :=
  { key := "m1", robotPosition := 1, scoreBreakdown := []
  , reports := [[{ name := "x", value := .num 3 }],
                [{ name := "x", value := .num 3 }],
                [{ name := "x", value := .num 5 }]] }

/-- Schema with a categorical report field for the AnyOf example. -/
def c4ExSchema : summary.Schema := [{ name := "state", variant := .reportRef "state" }]

/-- Observation whose single report assigns the state string "climbed". -/
def c4ExObs : summary.Match :=
  { key := "m1", robotPosition := 1, scoreBreakdown := []
  , reports := [[{ name := "state", value := .str "climbed" }]] }

/-- Schema whose only field Sums an undefined name: evaluating it raises a
SchemaIntegrityError. -/
def c6ExSchema : summary.Schema := [{ name := "bad", variant := .sum ["nope"] }]

/-- A plain observation for the failing-schema example. -/
def c6ExObs : summary.Match :=
  { key := "m1", robotPosition := 1, scoreBreakdown := [], reports := [] }

/-- Match list for the independence example: team A red, team B blue. -/
def c6ExMs : List store.Match :=
  [{ key := "m1", redAlliance := ["A"], blueAlliance := ["B"]
   , redScoreBreakdown := [], blueScoreBreakdown := [] }]

/-- Report list containing only a team-B report. -/
def c6ExRs : List store.Report :=
  [{ teamKey := "B", matchKey := "m1", data := [{ name := "x", value := .num 1 }] }]

/-- Aggregator output on c6ExMs with the team-B report present. -/
def c6ExF1 : String → List summary.Match :=
  fun t =>
    (([("A", { key := "m1", robotPosition := 1, scoreBreakdown := [], reports := [] }),
       ("B", { key := "m1", robotPosition := 1, scoreBreakdown := []
             , reports := [[{ name := "x", value := .num 1 }]] })] :
        List (String × summary.Match)).filter (fun e => e.1 == t)).map Prod.snd

/-- Aggregator output on c6ExMs with no reports at all. -/
def c6ExF2 : String → List summary.Match :=
  fun t =>
    (([("A", { key := "m1", robotPosition := 1, scoreBreakdown := [], reports := [] }),
       ("B", { key := "m1", robotPosition := 1, scoreBreakdown := [], reports := [] })] :
        List (String × summary.Match)).filter (fun e => e.1 == t)).map Prod.snd

/-- Observation with a boolean and a numeric breakdown entry. -/
def c7ExObs : summary.Match :=
  { key := "m1", robotPosition := 1
  , scoreBreakdown := [("b", .boolean true), ("q", .num 7)], reports := [] }

/-- One-field schema for the ordering counterexample. -/
def c9ExSchema : summary.Schema := [{ name := "score", variant := .tbaRef "score" }]

/-- Match for the ordering counterexample (team A scores 10, team B 20). -/
def c9ExMatch : store.Match :=
  { key := "m1", redAlliance := ["A"], blueAlliance := ["B"]
  , redScoreBreakdown := [("score", .num 10)]
  , blueScoreBreakdown := [("score", .num 20)] }

/-- Analysis row for team A in the ordering counterexample. -/
def c9ExA : server.teamAnalysis :=
  { team := "A", summaryStats := [{ name := "score", max := 10, average := 10 }] }

/-- Analysis row for team B in the ordering counterexample. -/
def c9ExB : server.teamAnalysis :=
  { team := "B", summaryStats := [{ name := "score", max := 20, average := 20 }] }

end Peregrine

namespace Peregrine

theorem exceptMap_ok_length {g : α → Except ε β} {l : List α} {bs : List β}
    (h : exceptMap g l = .ok bs) : bs.length = l.length := by
  induction l generalizing bs with
  | nil =>
    simp only [exceptMap, Except.ok.injEq] at h
    subst h; rfl
  | cons a as ih =>
    simp only [exceptMap] at h
    cases hga : g a <;> rw [hga] at h
    · exact absurd h (by simp)
    · cases hrec : exceptMap g as <;> rw [hrec] at h
      · exact absurd h (by simp)
      · simp only [Except.ok.injEq] at h
        subst h
        simp [ih hrec]

theorem exceptMap_ok_get {g : α → Except ε β} {l : List α} {bs : List β}
    (h : exceptMap g l = .ok bs) :
    ∀ i (hi : i < l.length) (hi2 : i < bs.length),
      g (l.get ⟨i, hi⟩) = .ok (bs.get ⟨i, hi2⟩) := by
  induction l generalizing bs with
  | nil => intro i hi _; exact absurd hi (by simp)
  | cons a as ih =>
    intro i hi hi2
    simp only [exceptMap] at h
    cases hga : g a <;> rw [hga] at h
    · exact absurd h (by simp)
    · cases hrec : exceptMap g as <;> rw [hrec] at h
      · exact absurd h (by simp)
      · simp only [Except.ok.injEq] at h
        subst h
        cases i with
        | zero => simpa using hga
        | succ j => exact ih hrec j (by simpa using hi) (by simpa using hi2)

theorem exceptMap_error_at {g : α → Except ε β} {l : List α} {i : Nat} {e : ε}
    (hi : i < l.length)
    (hpre : ∀ j (hj : j < i) (hj2 : j < l.length), ∃ b, g (l.get ⟨j, hj2⟩) = .ok b)
    (herr : g (l.get ⟨i, hi⟩) = .error e) :
    exceptMap g l = .error e := by
  induction l generalizing i with
  | nil => exact absurd hi (by simp)
  | cons a as ih =>
    cases i with
    | zero =>
      simp only [List.get] at herr
      simp [exceptMap, herr]
    | succ j =>
      obtain ⟨b, hb⟩ := hpre 0 (Nat.succ_pos j) (by simp)
      simp only [List.get] at hb herr
      have htail : exceptMap g as = .error e :=
        ih (by simpa using hi)
          (fun k hk hk2 => by simpa using hpre (k + 1) (by omega) (by simpa using hk2))
          herr
      simp [exceptMap, hb, htail]

theorem exceptMap_ok_eq_map (g : α → Except ε β) (d : β) {l : List α} {bs : List β}
    (h : exceptMap g l = .ok bs) : bs = l.map (okVal g d) := by
  induction l generalizing bs with
  | nil =>
    simp only [exceptMap, Except.ok.injEq] at h
    subst h; rfl
  | cons a as ih =>
    simp only [exceptMap] at h
    cases hga : g a <;> rw [hga] at h
    · exact absurd h (by simp)
    · cases hrec : exceptMap g as <;> rw [hrec] at h
      · exact absurd h (by simp)
      · simp only [Except.ok.injEq] at h
        subst h
        simp [okVal, hga, ih hrec]

theorem le_foldl_max (b : ℚ) : ∀ (l : List ℚ), b ≤ l.foldl max b
  | [] => le_refl b
  | x :: xs => le_trans (le_max_left b x) (le_foldl_max (max b x) xs)

theorem mem_le_foldl_max : ∀ (l : List ℚ) (b v : ℚ), v ∈ l → v ≤ l.foldl max b
  | [], _, v, h => absurd h (List.not_mem_nil v)
  | x :: xs, b, v, h => by
    rcases List.mem_cons.mp h with h1 | h2
    · subst h1
      exact le_trans (le_max_right b v) (le_foldl_max (max b v) xs)
    · exact mem_le_foldl_max xs (max b x) v h2

theorem foldl_max_mem : ∀ (l : List ℚ) (b : ℚ), l.foldl max b = b ∨ l.foldl max b ∈ l
  | [], _ => Or.inl rfl
  | x :: xs, b => by
    rw [List.foldl_cons]
    rcases foldl_max_mem xs (max b x) with h | h
    · rcases max_choice b x with hm | hm
      · exact Or.inl (h.trans hm)
      · right
        rw [h, hm]
        exact List.mem_cons_self x xs
    · exact Or.inr (List.mem_cons_of_mem x h)

theorem listMax_mem {l : List ℚ} (h : l ≠ []) : summary.listMax l ∈ l := by
  cases l with
  | nil => exact absurd rfl h
  | cons v rest =>
    rw [summary.listMax]
    rcases foldl_max_mem rest v with h1 | h1
    · rw [h1]; exact List.mem_cons_self v rest
    · exact List.mem_cons_of_mem v h1

theorem le_listMax {l : List ℚ} {v : ℚ} (h : v ∈ l) : v ≤ summary.listMax l := by
  cases l with
  | nil => exact absurd h (List.not_mem_nil v)
  | cons x rest =>
    rw [summary.listMax]
    rcases List.mem_cons.mp h with h1 | h1
    · subst h1; exact le_foldl_max v rest
    · exact mem_le_foldl_max rest x v h1

end Peregrine

namespace Peregrine.server

theorem entriesFrom_length (m : store.Match) (rIdx : String → String → List summary.Report) :
    ∀ (i : Nat) (ts : List String), (entriesFrom m rIdx i ts).length = ts.length
  | _, [] => rfl
  | i, _ :: rest => by
    simp [entriesFrom, entriesFrom_length m rIdx (i + 1) rest]

theorem entriesFrom_get (m : store.Match) (rIdx : String → String → List summary.Report) :
    ∀ (ts : List String) (i j : Nat) (hj : j < ts.length)
      (hj2 : j < (entriesFrom m rIdx i ts).length),
      (entriesFrom m rIdx i ts).get ⟨j, hj2⟩ =
        (ts.get ⟨j, hj⟩,
          { key := m.key
          , robotPosition := (i + j) % m.redAlliance.length + 1
          , scoreBreakdown :=
              if i + j < m.redAlliance.length then m.redScoreBreakdown else m.blueScoreBreakdown
          , reports := rIdx (ts.get ⟨j, hj⟩) m.key }) := by
  intro ts
  induction ts with
  | nil => intro i j hj _; exact absurd hj (by simp)
  | cons team rest ih =>
    intro i j hj hj2
    cases j with
    | zero => simp [entriesFrom]
    | succ k =>
      have hk : k < rest.length := by simpa using hj
      have hk2 : k < (entriesFrom m rIdx (i + 1) rest).length := by
        rw [entriesFrom_length]; exact hk
      have := ih (i + 1) k hk hk2
      simp only [entriesFrom, List.get_cons_succ]
      rw [this]
      have harith : i + 1 + k = i + (k + 1) := by omega
      simp [harith]

theorem entriesFrom_map_fst (m : store.Match) (rIdx : String → String → List summary.Report) :
    ∀ (i : Nat) (ts : List String), (entriesFrom m rIdx i ts).map Prod.fst = ts
  | _, [] => rfl
  | i, team :: rest => by
    simp [entriesFrom, entriesFrom_map_fst m rIdx (i + 1) rest]

theorem matchEntries_eq_none_iff (m : store.Match)
    (rIdx : String → String → List summary.Report) :
    matchEntries m rIdx = none ↔ m.redAlliance = [] ∧ m.blueAlliance ≠ [] := by
  unfold matchEntries
  by_cases h1 : m.redAlliance ++ m.blueAlliance = []
  · rcases List.append_eq_nil.mp h1 with ⟨hr, hb⟩
    simp [h1, hr, hb]
  · by_cases h2 : m.redAlliance.length = 0
    · have hr : m.redAlliance = [] := List.length_eq_zero.mp h2
      have hb : m.blueAlliance ≠ [] := by
        intro hb
        exact h1 (by simp [hr, hb])
      simp [h1, h2, hr, hb]
    · have hr : m.redAlliance ≠ [] := by
        intro hr; exact h2 (by simp [hr])
      simp [h1, h2, hr]

theorem collectEntries_eq_none_iff (rIdx : String → String → List summary.Report) :
    ∀ (ms : List store.Match),
      collectEntries rIdx ms = none ↔ ∃ m ∈ ms, m.redAlliance = [] ∧ m.blueAlliance ≠ [] := by
  intro ms
  induction ms with
  | nil => simp [collectEntries]
  | cons m rest ih =>
    simp only [collectEntries]
    cases hm : matchEntries m rIdx with
    | none =>
      have := (matchEntries_eq_none_iff m rIdx).mp hm
      simp [List.mem_cons]
      exact Or.inl this
    | some es =>
      have hm2 : ¬(m.redAlliance = [] ∧ m.blueAlliance ≠ []) := by
        intro hc
        rw [(matchEntries_eq_none_iff m rIdx).mpr hc] at hm
        exact absurd hm (by simp)
      cases hrec : collectEntries rIdx rest with
      | none =>
        simp only [List.mem_cons]
        constructor
        · intro _
          obtain ⟨m2, hmem, hprop⟩ := ih.mp hrec
          exact ⟨m2, Or.inr hmem, hprop⟩
        · intro _; trivial
      | some more =>
        simp only [List.mem_cons]
        constructor
        · intro hc; exact absurd hc (by simp)
        · rintro ⟨m2, hmem, hprop⟩
          rcases hmem with h | h
          · subst h; exact absurd hprop hm2
          · have : collectEntries rIdx rest = none := ih.mpr ⟨m2, h, hprop⟩
            rw [this] at hrec
            exact absurd hrec (by simp)

theorem matchEntries_some_map_fst {m : store.Match}
    {rIdx : String → String → List summary.Report} {es : List (String × summary.Match)}
    (h : matchEntries m rIdx = some es) : es.map Prod.fst = m.redAlliance ++ m.blueAlliance := by
  unfold matchEntries at h
  by_cases h1 : m.redAlliance ++ m.blueAlliance = []
  · rw [if_pos h1] at h
    simp only [Option.some.injEq] at h
    rw [← h, h1]
    rfl
  · rw [if_neg h1] at h
    by_cases h2 : m.redAlliance.length = 0
    · rw [if_pos h2] at h
      exact absurd h (by simp)
    · rw [if_neg h2] at h
      simp only [Option.some.injEq] at h
      rw [← h]
      exact entriesFrom_map_fst m rIdx 0 _

theorem collectEntries_team_iff {rIdx : String → String → List summary.Report} :
    ∀ {ms : List store.Match} {es : List (String × summary.Match)},
      collectEntries rIdx ms = some es → ∀ t : String,
        ((∃ e ∈ es, e.1 = t) ↔ ∃ m ∈ ms, t ∈ m.redAlliance ++ m.blueAlliance) := by
  intro ms
  induction ms with
  | nil =>
    intro es h t
    simp only [collectEntries, Option.some.injEq] at h
    subst h
    simp
  | cons m rest ih =>
    intro es h t
    simp only [collectEntries] at h
    cases hm : matchEntries m rIdx <;> rw [hm] at h
    · exact absurd h (by simp)
    case some es1 =>
      cases hrec : collectEntries rIdx rest <;> rw [hrec] at h
      · exact absurd h (by simp)
      case some more =>
        simp only [Option.some.injEq] at h
        subst h
        have h1 : (∃ e ∈ es1, e.1 = t) ↔ t ∈ m.redAlliance ++ m.blueAlliance := by
          rw [← matchEntries_some_map_fst hm]
          simp [List.mem_map, eq_comm]
        simp only [List.mem_cons]
        constructor
        · rintro ⟨e, he, het⟩
          rcases List.mem_append.mp he with h2 | h2
          · exact ⟨m, Or.inl rfl, h1.mp ⟨e, h2, het⟩⟩
          · obtain ⟨m2, hm2, ht2⟩ := (ih hrec t).mp ⟨e, h2, het⟩
            exact ⟨m2, Or.inr hm2, ht2⟩
        · rintro ⟨m2, hmem, ht2⟩
          rcases hmem with h2 | h2
          · subst h2
            obtain ⟨e, he, het⟩ := h1.mpr ht2
            exact ⟨e, List.mem_append.mpr (Or.inl he), het⟩
          · obtain ⟨e, he, het⟩ := (ih hrec t).mpr ⟨m2, h2, ht2⟩
            exact ⟨e, List.mem_append.mpr (Or.inr he), het⟩

end Peregrine.server

namespace Peregrine.server

/-- C1: For every match, the Aggregator enumerates all red-alliance teams
first and then all blue-alliance teams, assigns the participant at overall
index i the alliance position (i mod R) + 1 where R is the red-alliance
size (the divisor is used uniformly for both colours), and gives every
entry with index below R the red ScoreBreakdown and every remaining entry
the blue ScoreBreakdown; with redAlliance=[A,B,C] and blueAlliance=[D,E,F]
this yields positions A=1,B=2,C=3,D=1,E=2,F=3 with the matching breakdowns. -/
theorem C1_aggregator_position_and_breakdown
    (m : store.Match) (rIdx : String → String → List summary.Report)
    (hR : m.redAlliance ≠ []) :
    ∃ es, matchEntries m rIdx = some es ∧
      es.length = (m.redAlliance ++ m.blueAlliance).length ∧
      ∀ i (hi : i < (m.redAlliance ++ m.blueAlliance).length) (hi2 : i < es.length),
        es.get ⟨i, hi2⟩ =
          ((m.redAlliance ++ m.blueAlliance).get ⟨i, hi⟩,
            { key := m.key
            , robotPosition := i % m.redAlliance.length + 1
            , scoreBreakdown :=
                if i < m.redAlliance.length then m.redScoreBreakdown else m.blueScoreBreakdown
            , reports := rIdx ((m.redAlliance ++ m.blueAlliance).get ⟨i, hi⟩) m.key }) := by
  have h1 : m.redAlliance ++ m.blueAlliance ≠ [] := by
    intro hc
    exact hR (List.append_eq_nil.mp hc).1
  have h2 : m.redAlliance.length ≠ 0 := by
    intro hc
    exact hR (List.length_eq_zero.mp hc)
  refine ⟨entriesFrom m rIdx 0 (m.redAlliance ++ m.blueAlliance), ?_, ?_, ?_⟩
  · unfold matchEntries
    rw [if_neg h1, if_neg h2]
  · exact entriesFrom_length m rIdx 0 _
  · intro i hi hi2
    simpa using entriesFrom_get m rIdx (m.redAlliance ++ m.blueAlliance) 0 i hi hi2

/-- Witness for C1: the theorem applied to the spec example match with
redAlliance [A,B,C] and blueAlliance [D,E,F]. -/
theorem C1_witness :
    c1ExMatch.redAlliance ≠ [] ∧
    (∃ es, matchEntries c1ExMatch (fun _ _ => []) = some es ∧
      es.length = (c1ExMatch.redAlliance ++ c1ExMatch.blueAlliance).length ∧
      ∀ i (hi : i < (c1ExMatch.redAlliance ++ c1ExMatch.blueAlliance).length)
        (hi2 : i < es.length),
        es.get ⟨i, hi2⟩ =
          ((c1ExMatch.redAlliance ++ c1ExMatch.blueAlliance).get ⟨i, hi⟩,
            { key := c1ExMatch.key
            , robotPosition := i % c1ExMatch.redAlliance.length + 1
            , scoreBreakdown :=
                if i < c1ExMatch.redAlliance.length then c1ExMatch.redScoreBreakdown
                else c1ExMatch.blueScoreBreakdown
            , reports := [] })) := by
  constructor
  · decide
  · have h := C1_aggregator_position_and_breakdown c1ExMatch (fun _ _ => []) (by decide)
    exact h

/-- C8: The domain of the Aggregator's output map is exactly the set of
teams that appear in some match's red or blue alliance list: a team absent
from every match is mapped to the empty observation list (it does not
appear in the output map), and such absence is not an error. -/
theorem C8_output_domain
    (ms : List store.Match) (rs : List store.Report) (f : String → List summary.Match)
    (h : selectTeamMatches ms rs = some f) (t : String) :
    f t ≠ [] ↔ ∃ m ∈ ms, t ∈ m.redAlliance ++ m.blueAlliance := by
  unfold selectTeamMatches at h
  cases hce : collectEntries (reportsIndex rs) ms <;> rw [hce] at h
  · exact absurd h (by simp)
  case some es =>
    simp only [Option.some.injEq] at h
    subst h
    rw [← collectEntries_team_iff hce t, ne_eq, List.map_eq_nil_iff]
    constructor
    · intro hne
      by_contra hc
      push_neg at hc
      apply hne
      apply List.filter_eq_nil_iff.mpr
      intro e he
      simpa using hc e he
    · rintro ⟨e, he, het⟩ hnil
      have := List.filter_eq_nil_iff.mp hnil e he
      simp [het] at this

/-- Witness for C8: on a match with red team A and blue team B and no
reports, team A is in the domain and team Z is not. -/
theorem C8_witness :
    selectTeamMatches [c8ExMatch] [] = some c8ExF ∧
    (c8ExF "A" ≠ [] ↔ ∃ m ∈ [c8ExMatch], "A" ∈ m.redAlliance ++ m.blueAlliance) ∧
    (c8ExF "Z" ≠ [] ↔ ∃ m ∈ [c8ExMatch], "Z" ∈ m.redAlliance ++ m.blueAlliance) :=
  ⟨rfl,
   C8_output_domain [c8ExMatch] [] c8ExF rfl "A",
   C8_output_domain [c8ExMatch] [] c8ExF rfl "Z"⟩

/-- C10: The Aggregator aborts (the Go program divides by zero in
(index mod R) + 1) exactly when some input match has an empty red alliance
together with a non-empty blue alliance; equivalently, it is total iff
every match with at least one participant has a non-empty red alliance. -/
theorem C10_divide_by_zero_iff (ms : List store.Match) (rs : List store.Report) :
    selectTeamMatches ms rs = none ↔
      ∃ m ∈ ms, m.redAlliance = [] ∧ m.blueAlliance ≠ [] := by
  unfold selectTeamMatches
  cases hce : collectEntries (reportsIndex rs) ms with
  | none =>
    simp only []
    constructor
    · intro _
      exact (collectEntries_eq_none_iff (reportsIndex rs) ms).mp hce
    · intro _
      trivial
  | some es =>
    have hno : ¬∃ m ∈ ms, m.redAlliance = [] ∧ m.blueAlliance ≠ [] := by
      intro hc
      rw [(collectEntries_eq_none_iff (reportsIndex rs) ms).mpr hc] at hce
      exact absurd hce (by simp)
    simp [hno]

end Peregrine.server

namespace Peregrine.summary

/-- C2: For every observation and all field names A and B defined in the
schema (whose own evaluations succeed), evaluating Sum([A,B]) equals the
evaluation of A plus the evaluation of B with absent taken as 0, and the
result of a Sum is itself present (never absent). -/
theorem C2_sum_additive (schema : Schema) (fuel : Nat) (obs : Match)
    (sname a b : String) (fa fb : SchemaField) (ra rb : Option Value)
    (hla : lookupField schema a = some fa)
    (hlb : lookupField schema b = some fb)
    (hea : evalField schema fuel fa obs = .ok ra)
    (heb : evalField schema fuel fb obs = .ok rb) :
    evalField schema (fuel + 1) { name := sname, variant := .sum [a, b] } obs =
      .ok (some (.num (orZero ra + orZero rb))) := by
  simp only [evalField]
  simp only [exceptMap, hla, hlb, hea, heb]
  simp

/-- Witness for C2: Sum over the raw breakdown fields x = 3 and y = 4
evaluates to 7 = 3 + 4. -/
theorem C2_witness :
    lookupField c2ExSchema "x" = some { name := "x", variant := .tbaRef "x" } ∧
    lookupField c2ExSchema "y" = some { name := "y", variant := .tbaRef "y" } ∧
    evalField c2ExSchema 1 { name := "x", variant := .tbaRef "x" } c2ExObs =
      .ok (some (.num 3)) ∧
    evalField c2ExSchema 1 { name := "y", variant := .tbaRef "y" } c2ExObs =
      .ok (some (.num 4)) ∧
    evalField c2ExSchema 2 { name := "s", variant := .sum ["x", "y"] } c2ExObs =
      .ok (some (.num (orZero (some (.num 3)) + orZero (some (.num 4))))) :=
  ⟨by decide, by decide, by decide, by decide,
   C2_sum_additive c2ExSchema 1 c2ExObs "s" "x" "y"
     { name := "x", variant := .tbaRef "x" } { name := "y", variant := .tbaRef "y" }
     (some (.num 3)) (some (.num 4)) (by decide) (by decide) (by decide) (by decide)⟩

/-- C4: For every observation, evaluating AnyOf([(X, v)]) yields 1 exactly
when the evaluated value of the referenced sub-field X equals the literal v
and 0 otherwise, and the result is never absent. -/
theorem C4_anyof_indicator (schema : Schema) (fuel : Nat) (obs : Match)
    (aname X : String) (v : Value) (fx : SchemaField) (r : Option Value)
    (hlx : lookupField schema X = some fx)
    (hex : evalField schema fuel fx obs = .ok r) :
    evalField schema (fuel + 1) { name := aname, variant := .anyOf [(X, v)] } obs =
      .ok (some (.num (if r = some v then 1 else 0))) := by
  simp only [evalField]
  simp only [exceptMap, hlx, hex]
  by_cases hc : r = some v <;> simp [hc]

/-- Witness for C4: on an observation whose report sets state to the string
"climbed", AnyOf [(state, "climbed")] evaluates to 1 and
AnyOf [(state, "parked")] evaluates to 0. -/
theorem C4_witness :
    lookupField c4ExSchema "state" = some { name := "state", variant := .reportRef "state" } ∧
    evalField c4ExSchema 1 { name := "state", variant := .reportRef "state" } c4ExObs =
      .ok (some (.str "climbed")) ∧
    evalField c4ExSchema 2 { name := "climbed", variant := .anyOf [("state", .str "climbed")] }
        c4ExObs =
      .ok (some (.num (if (some (Value.str "climbed") : Option Value) = some (.str "climbed")
        then 1 else 0))) ∧
    evalField c4ExSchema 2 { name := "parked", variant := .anyOf [("state", .str "parked")] }
        c4ExObs =
      .ok (some (.num (if (some (Value.str "climbed") : Option Value) = some (.str "parked")
        then 1 else 0))) :=
  ⟨by decide, by decide,
   C4_anyof_indicator c4ExSchema 1 c4ExObs "climbed" "state" (.str "climbed")
     { name := "state", variant := .reportRef "state" } (some (.str "climbed"))
     (by decide) (by decide),
   C4_anyof_indicator c4ExSchema 1 c4ExObs "parked" "state" (.str "parked")
     { name := "state", variant := .reportRef "state" } (some (.str "climbed"))
     (by decide) (by decide)⟩

/-- C7: For every observation, evaluating TBARef(name) reads name from the
observation's ScoreBreakdown: boolean true/false coerces to 1/0, a numeric
value passes through unchanged, and a missing key yields an absent result
(not an error and not zero). -/
theorem C7_tbaref (schema : Schema) (fuel : Nat) (obs : Match) (fname key : String) :
    (∀ b : Bool, tbaLookup key obs.scoreBreakdown = some (.boolean b) →
      evalField schema (fuel + 1) { name := fname, variant := .tbaRef key } obs =
        .ok (some (.num (if b then 1 else 0)))) ∧
    (∀ q : ℚ, tbaLookup key obs.scoreBreakdown = some (.num q) →
      evalField schema (fuel + 1) { name := fname, variant := .tbaRef key } obs =
        .ok (some (.num q))) ∧
    (tbaLookup key obs.scoreBreakdown = none →
      evalField schema (fuel + 1) { name := fname, variant := .tbaRef key } obs = .ok none) := by
  refine ⟨?_, ?_, ?_⟩
  · intro b hb
    simp [evalField, hb, tbaCoerce]
  · intro q hq
    simp [evalField, hq, tbaCoerce]
  · intro hnone
    simp [evalField, hnone]

/-- Witness for C7: on a breakdown with entries b = true and q = 7, TBARef
reads 1 for b, 7 for q, and is absent on the missing key z. -/
theorem C7_witness :
    tbaLookup "b" c7ExObs.scoreBreakdown = some (.boolean true) ∧
    tbaLookup "q" c7ExObs.scoreBreakdown = some (.num 7) ∧
    tbaLookup "z" c7ExObs.scoreBreakdown = none ∧
    evalField [] 1 { name := "b", variant := .tbaRef "b" } c7ExObs =
      .ok (some (.num (if true then 1 else 0))) ∧
    evalField [] 1 { name := "q", variant := .tbaRef "q" } c7ExObs = .ok (some (.num 7)) ∧
    evalField [] 1 { name := "z", variant := .tbaRef "z" } c7ExObs = .ok none :=
  ⟨by decide, by decide, by decide,
   (C7_tbaref [] 0 c7ExObs "b" "b").1 true (by decide),
   (C7_tbaref [] 0 c7ExObs "q" "q").2.1 7 (by decide),
   (C7_tbaref [] 0 c7ExObs "z" "z").2.2 (by decide)⟩

/-- C3: For every observation, evaluating ReportRef(name) collects name's
value from every attached report and returns the mode — a collected value
of maximal occurrence count, the first-seen one when counts tie — and the
result is absent when the observation has zero reports. -/
theorem C3_reportref_mode (schema : Schema) (fuel : Nat) (obs : Match) (fname key : String) :
    evalField schema (fuel + 1) { name := fname, variant := .reportRef key } obs =
      .ok (modeV (collectValues key obs.reports)) ∧
    (obs.reports = [] →
      evalField schema (fuel + 1) { name := fname, variant := .reportRef key } obs = .ok none) ∧
    (∀ m : Value, modeV (collectValues key obs.reports) = some m →
      m ∈ collectValues key obs.reports ∧
      (∀ v ∈ collectValues key obs.reports,
        countV (collectValues key obs.reports) v ≤ countV (collectValues key obs.reports) m) ∧
      (∀ v ∈ collectValues key obs.reports,
        countV (collectValues key obs.reports) m ≤ countV (collectValues key obs.reports) v →
        (collectValues key obs.reports).indexOf m ≤ (collectValues key obs.reports).indexOf v)) ∧
    (collectValues key obs.reports ≠ [] →
      ∃ m, modeV (collectValues key obs.reports) = some m) := by
  refine ⟨by simp [evalField], ?_, ?_, ?_⟩
  · intro hrep
    simp [evalField, hrep, collectValues, modeV]
  · intro m hm
    rw [modeV] at hm
    obtain ⟨h1, h2, h3⟩ := List.argmax_eq_some_iff.mp hm
    exact ⟨h1, h2, fun v hv hle => h3 v hv hle⟩
  · intro hne
    rw [modeV]
    cases harg : (collectValues key obs.reports).argmax
        (countV (collectValues key obs.reports)) with
    | none => exact absurd (List.argmax_eq_none.mp harg) hne
    | some m => exact ⟨m, rfl⟩

/-- Witness for C3: two reports give x the value 3 and one gives 5, so the
evaluator returns 3, a value of maximal count among the collected values. -/
theorem C3_witness :
    evalField [] 1 { name := "mode", variant := .reportRef "x" } c3ExObs =
      .ok (modeV (collectValues "x" c3ExObs.reports)) ∧
    modeV (collectValues "x" c3ExObs.reports) = some (.num 3) ∧
    (Value.num 3) ∈ collectValues "x" c3ExObs.reports ∧
    (∀ v ∈ collectValues "x" c3ExObs.reports,
      countV (collectValues "x" c3ExObs.reports) v ≤
        countV (collectValues "x" c3ExObs.reports) (.num 3)) := by
  have h := C3_reportref_mode [] 0 c3ExObs "mode" "x"
  have hm := h.2.2.1 (.num 3) (by decide)
  exact ⟨h.1, by decide, hm.1, hm.2.1⟩

/-- C5: summarize produces one Stat per schema field in schema order; for
each field, max is the maximum of the present evaluated values and average
is their arithmetic mean sum/count, and when no values are present both max
and average are 0 rather than the field being omitted. -/
theorem C5_summarize (schema : Schema) (obsList : List Match) (s : Summary)
    (h : SummarizeTeam schema obsList = .ok s) :
    s.length = schema.length ∧
    ∀ i (hi : i < schema.length) (hi2 : i < s.length),
      ∃ vals,
        presentValues schema (schema.length + 1) (schema.get ⟨i, hi⟩) obsList = .ok vals ∧
        (s.get ⟨i, hi2⟩).name = (schema.get ⟨i, hi⟩).name ∧
        (s.get ⟨i, hi2⟩).max = listMax vals ∧
        (s.get ⟨i, hi2⟩).average =
          (if vals.length = 0 then 0 else vals.sum / (vals.length : ℚ)) ∧
        (vals = [] → (s.get ⟨i, hi2⟩).max = 0 ∧ (s.get ⟨i, hi2⟩).average = 0) ∧
        (vals ≠ [] →
          (s.get ⟨i, hi2⟩).max ∈ vals ∧
          (∀ v ∈ vals, v ≤ (s.get ⟨i, hi2⟩).max) ∧
          (s.get ⟨i, hi2⟩).average * (vals.length : ℚ) = vals.sum) := by
  have hlen := exceptMap_ok_length h
  refine ⟨hlen, ?_⟩
  intro i hi hi2
  have hfi := exceptMap_ok_get h i hi hi2
  rw [fieldStat] at hfi
  cases hpv : presentValues schema (schema.length + 1) (schema.get ⟨i, hi⟩) obsList <;>
    rw [hpv] at hfi
  · exact absurd hfi (by simp)
  case ok vals =>
    simp only [Except.ok.injEq] at hfi
    refine ⟨vals, rfl, ?_, ?_, ?_, ?_, ?_⟩
    · rw [← hfi]
    · rw [← hfi]
    · rw [← hfi]
    · intro hv
      subst hv
      rw [← hfi]
      exact ⟨rfl, rfl⟩
    · intro hv
      have hl : vals.length ≠ 0 := by
        intro hc
        exact hv (List.length_eq_zero.mp hc)
      have hlq : (vals.length : ℚ) ≠ 0 := Nat.cast_ne_zero.mpr hl
      refine ⟨?_, ?_, ?_⟩
      · rw [← hfi]
        exact listMax_mem hv
      · intro v hvmem
        rw [← hfi]
        exact le_listMax hvmem
      · rw [← hfi]
        simp only [if_neg hl]
        exact div_mul_cancel₀ _ hlq

/-- Witness for C5: a team seen in two matches with raw scores 10 and 20
summarizes to max 20 and average 15, with all of the characterization. -/
theorem C5_witness :
    SummarizeTeam c5ExSchema [c5ExObs1, c5ExObs2] =
      .ok [{ name := "score", max := 20, average := 15 }] ∧
    (([{ name := "score", max := 20, average := 15 }] : Summary).length = c5ExSchema.length ∧
     ∀ i (hi : i < c5ExSchema.length)
       (hi2 : i < ([{ name := "score", max := 20, average := 15 }] : Summary).length),
       ∃ vals,
         presentValues c5ExSchema (c5ExSchema.length + 1) (c5ExSchema.get ⟨i, hi⟩)
           [c5ExObs1, c5ExObs2] = .ok vals ∧
         (([{ name := "score", max := 20, average := 15 }] : Summary).get ⟨i, hi2⟩).name =
           (c5ExSchema.get ⟨i, hi⟩).name ∧
         (([{ name := "score", max := 20, average := 15 }] : Summary).get ⟨i, hi2⟩).max =
           listMax vals ∧
         (([{ name := "score", max := 20, average := 15 }] : Summary).get ⟨i, hi2⟩).average =
           (if vals.length = 0 then 0 else vals.sum / (vals.length : ℚ)) ∧
         (vals = [] →
           (([{ name := "score", max := 20, average := 15 }] : Summary).get ⟨i, hi2⟩).max = 0 ∧
           (([{ name := "score", max := 20, average := 15 }] : Summary).get
               ⟨i, hi2⟩).average = 0) ∧
         (vals ≠ [] →
           (([{ name := "score", max := 20, average := 15 }] : Summary).get ⟨i, hi2⟩).max ∈
             vals ∧
           (∀ v ∈ vals,
             v ≤ (([{ name := "score", max := 20, average := 15 }] : Summary).get
               ⟨i, hi2⟩).max) ∧
           (([{ name := "score", max := 20, average := 15 }] : Summary).get
               ⟨i, hi2⟩).average * (vals.length : ℚ) = vals.sum)) :=
  have hok : SummarizeTeam c5ExSchema [c5ExObs1, c5ExObs2] =
      .ok [{ name := "score", max := 20, average := 15 }] := by
    simp [SummarizeTeam, fieldStat, presentValues, exceptMap, evalField, tbaLookup,
      tbaCoerce, toNum, listMax, c5ExSchema, c5ExObs1, c5ExObs2, List.filterMap_cons]
    norm_num
  ⟨hok,
   C5_summarize c5ExSchema [c5ExObs1, c5ExObs2]
     [{ name := "score", max := 20, average := 15 }] hok⟩

end Peregrine.summary

namespace Peregrine.server

theorem reportsIndex_team_eq {rs1 rs2 : List store.Report} {t : String}
    (h : rs1.filter (fun r => r.teamKey == t) = rs2.filter (fun r => r.teamKey == t)) :
    ∀ k, reportsIndex rs1 t k = reportsIndex rs2 t k := by
  intro k
  unfold reportsIndex
  have key : ∀ rs : List store.Report,
      rs.filter (fun r => r.teamKey == t && r.matchKey == k) =
      (rs.filter (fun r => r.teamKey == t)).filter (fun r => r.matchKey == k) := by
    intro rs
    rw [List.filter_filter]
    apply List.filter_congr
    intro r _
    exact Bool.and_comm _ _
  rw [key rs1, key rs2, h]

theorem entriesFrom_filter_congr (m : store.Match)
    (rIdx1 rIdx2 : String → String → List summary.Report) (t : String)
    (hcong : ∀ k, rIdx1 t k = rIdx2 t k) :
    ∀ (i : Nat) (ts : List String),
      ((entriesFrom m rIdx1 i ts).filter (fun e => e.1 == t)).map Prod.snd =
      ((entriesFrom m rIdx2 i ts).filter (fun e => e.1 == t)).map Prod.snd
  | _, [] => rfl
  | i, team :: rest => by
    have hrec := entriesFrom_filter_congr m rIdx1 rIdx2 t hcong (i + 1) rest
    simp only [entriesFrom, List.filter_cons]
    by_cases ht : team = t
    · have hb : (team == t) = true := by simp [ht]
      simp [hb, ht, hcong, hrec]
    · have hb : (team == t) = false := by simp [ht]
      simp [hb, hrec]

theorem matchEntries_filter_congr (m : store.Match)
    (rIdx1 rIdx2 : String → String → List summary.Report) (t : String)
    (hcong : ∀ k, rIdx1 t k = rIdx2 t k) :
    (matchEntries m rIdx1 = none ∧ matchEntries m rIdx2 = none) ∨
    (∃ es1 es2, matchEntries m rIdx1 = some es1 ∧ matchEntries m rIdx2 = some es2 ∧
      (es1.filter (fun e => e.1 == t)).map Prod.snd =
      (es2.filter (fun e => e.1 == t)).map Prod.snd) := by
  unfold matchEntries
  by_cases h1 : m.redAlliance ++ m.blueAlliance = []
  · right
    exact ⟨[], [], by rw [if_pos h1], by rw [if_pos h1], rfl⟩
  · by_cases h2 : m.redAlliance.length = 0
    · left
      constructor <;> rw [if_neg h1, if_pos h2]
    · right
      refine ⟨entriesFrom m rIdx1 0 (m.redAlliance ++ m.blueAlliance),
              entriesFrom m rIdx2 0 (m.redAlliance ++ m.blueAlliance),
              by rw [if_neg h1, if_neg h2], by rw [if_neg h1, if_neg h2], ?_⟩
      exact entriesFrom_filter_congr m rIdx1 rIdx2 t hcong 0 _

theorem collectEntries_filter_congr
    (rIdx1 rIdx2 : String → String → List summary.Report) (t : String)
    (hcong : ∀ k, rIdx1 t k = rIdx2 t k) :
    ∀ (ms : List store.Match) (es1 es2 : List (String × summary.Match)),
      collectEntries rIdx1 ms = some es1 → collectEntries rIdx2 ms = some es2 →
      (es1.filter (fun e => e.1 == t)).map Prod.snd =
      (es2.filter (fun e => e.1 == t)).map Prod.snd := by
  intro ms
  induction ms with
  | nil =>
    intro es1 es2 h1 h2
    simp only [collectEntries, Option.some.injEq] at h1 h2
    rw [← h1, ← h2]
  | cons m rest ih =>
    intro es1 es2 h1 h2
    simp only [collectEntries] at h1 h2
    rcases matchEntries_filter_congr m rIdx1 rIdx2 t hcong with ⟨hn1, _⟩ | ⟨p1, p2, hs1, hs2, hp⟩
    · rw [hn1] at h1
      exact absurd h1 (by simp)
    · rw [hs1] at h1
      rw [hs2] at h2
      cases hr1 : collectEntries rIdx1 rest <;> rw [hr1] at h1
      · exact absurd h1 (by simp)
      case some more1 =>
        cases hr2 : collectEntries rIdx2 rest <;> rw [hr2] at h2
        · exact absurd h2 (by simp)
        case some more2 =>
          simp only [Option.some.injEq] at h1 h2
          rw [← h1, ← h2]
          rw [List.filter_append, List.filter_append, List.map_append, List.map_append]
          rw [hp, ih more1 more2 hr1 hr2]

end Peregrine.server

namespace Peregrine

/-- C6: A SchemaIntegrityError raised while evaluating any field aborts that
team's Summary fail-fast — SummarizeTeam returns the error of the first
failing field and no partial stat list — and one team's data (and hence its
failure) cannot affect another team's summarization: a team's observation
list, and therefore its Summary, depends only on the reports filed for that
team. -/
theorem C6_failfast_and_independent :
    (∀ (schema : summary.Schema) (obsList : List summary.Match) (i : Nat)
       (hi : i < schema.length) (e : summary.SchemaErr),
       (∀ j (hj : j < i) (hj2 : j < schema.length),
         ∃ st, summary.fieldStat schema (schema.length + 1) (schema.get ⟨j, hj2⟩) obsList =
           .ok st) →
       summary.fieldStat schema (schema.length + 1) (schema.get ⟨i, hi⟩) obsList = .error e →
       summary.SummarizeTeam schema obsList = .error e) ∧
    (∀ (ms : List store.Match) (rs1 rs2 : List store.Report) (t : String)
       (f1 f2 : String → List summary.Match),
       server.selectTeamMatches ms rs1 = some f1 →
       server.selectTeamMatches ms rs2 = some f2 →
       rs1.filter (fun r => r.teamKey == t) = rs2.filter (fun r => r.teamKey == t) →
       f1 t = f2 t ∧
       ∀ schema : summary.Schema,
         summary.SummarizeTeam schema (f1 t) = summary.SummarizeTeam schema (f2 t)) := by
  constructor
  · intro schema obsList i hi e hpre herr
    exact exceptMap_error_at hi hpre herr
  · intro ms rs1 rs2 t f1 f2 h1 h2 hfil
    unfold server.selectTeamMatches at h1 h2
    cases hc1 : server.collectEntries (server.reportsIndex rs1) ms <;> rw [hc1] at h1
    · exact absurd h1 (by simp)
    case some es1 =>
      cases hc2 : server.collectEntries (server.reportsIndex rs2) ms <;> rw [hc2] at h2
      · exact absurd h2 (by simp)
      case some es2 =>
        simp only [Option.some.injEq] at h1 h2
        have hft : f1 t = f2 t := by
          rw [← h1, ← h2]
          exact server.collectEntries_filter_congr _ _ t
            (server.reportsIndex_team_eq hfil) ms es1 es2 hc1 hc2
        exact ⟨hft, fun schema => by rw [hft]⟩

/-- Witness for C6: a schema whose only field Sums the undefined name nope
makes SummarizeTeam fail with exactly that integrity error on a team with
one observation, and team A's observation list is unchanged whether or not
team B filed a report. -/
theorem C6_witness :
    summary.fieldStat c6ExSchema (c6ExSchema.length + 1)
      (c6ExSchema.get ⟨0, by decide⟩) [c6ExObs] = .error (.integrity "nope") ∧
    summary.SummarizeTeam c6ExSchema [c6ExObs] = .error (.integrity "nope") ∧
    server.selectTeamMatches c6ExMs c6ExRs = some c6ExF1 ∧
    server.selectTeamMatches c6ExMs [] = some c6ExF2 ∧
    c6ExRs.filter (fun r => r.teamKey == "A") = ([] : List store.Report).filter
      (fun r => r.teamKey == "A") ∧
    c6ExF1 "A" = c6ExF2 "A" := by
  have herr : summary.fieldStat c6ExSchema (c6ExSchema.length + 1)
      (c6ExSchema.get ⟨0, by decide⟩) [c6ExObs] = .error (.integrity "nope") := by decide
  have hsum := C6_failfast_and_independent.1 c6ExSchema [c6ExObs] 0 (by decide)
    (.integrity "nope") (fun j hj _ => absurd hj (by omega)) herr
  have hind := C6_failfast_and_independent.2 c6ExMs c6ExRs [] "A" c6ExF1 c6ExF2
    rfl rfl (by decide)
  exact ⟨herr, hsum, rfl, rfl, by decide, hind.1⟩

/-- Evaluation of the event loop on the two-team example in key order A, B. -/
theorem c9_eval_ab :
    server.eventStats c9ExSchema [c9ExMatch] [] ["A", "B"] = some (.ok [c9ExA, c9ExB]) := by
  simp [server.eventStats, server.selectTeamMatches, server.collectEntries,
    server.matchEntries, server.entriesFrom, server.reportsIndex,
    server.teamAnalysisFromSummary, summary.SummarizeTeam, summary.fieldStat,
    summary.presentValues, summary.evalField, summary.tbaLookup, summary.tbaCoerce,
    summary.toNum, summary.listMax, exceptMap, c9ExSchema, c9ExMatch, c9ExA, c9ExB,
    List.filterMap_cons]

/-- Evaluation of the event loop on the two-team example in key order B, A. -/
theorem c9_eval_ba :
    server.eventStats c9ExSchema [c9ExMatch] [] ["B", "A"] = some (.ok [c9ExB, c9ExA]) := by
  simp [server.eventStats, server.selectTeamMatches, server.collectEntries,
    server.matchEntries, server.entriesFrom, server.reportsIndex,
    server.teamAnalysisFromSummary, summary.SummarizeTeam, summary.fieldStat,
    summary.presentValues, summary.evalField, summary.tbaLookup, summary.tbaCoerce,
    summary.toNum, summary.listMax, exceptMap, c9ExSchema, c9ExMatch, c9ExA, c9ExB,
    List.filterMap_cons]

/-- C9 (counterexample): the claim that the per-team result ordering of the
event-wide output is deterministic fails on the code.  eventStats ranges
over the Go team map, whose iteration order the language leaves unspecified;
modelling that order explicitly, the two possible key orders of the same
two-team key set are both valid runs on identical (schema, matches, reports)
inputs, yet they produce differently ordered — hence not byte-identical —
outputs. -/
theorem C9_counterexample :
    (["A", "B"] : List String).Perm ["B", "A"] ∧
    server.eventStats c9ExSchema [c9ExMatch] [] ["A", "B"] = some (.ok [c9ExA, c9ExB]) ∧
    server.eventStats c9ExSchema [c9ExMatch] [] ["B", "A"] = some (.ok [c9ExB, c9ExA]) ∧
    ([c9ExA, c9ExB] : List server.teamAnalysis) ≠ [c9ExB, c9ExA] :=
  ⟨by decide, c9_eval_ab, c9_eval_ba, by decide⟩

/-- C9 (amended): running the pipeline twice on identical (schema, matches,
reports) inputs and the same map-iteration order yields identical results —
each team's analysis row is a deterministic function of the inputs — and
any two iteration orders that are permutations of each other yield
permutations of the same per-team rows; the list order itself follows Go's
unspecified map iteration order, which eventStats does not sort. -/
theorem C9_amended_perm (schema : summary.Schema) (ms : List store.Match)
    (rs : List store.Report) (o1 o2 : List String)
    (r1 r2 : List server.teamAnalysis)
    (hp : o1.Perm o2)
    (h1 : server.eventStats schema ms rs o1 = some (.ok r1))
    (h2 : server.eventStats schema ms rs o2 = some (.ok r2)) :
    r1.Perm r2 := by
  unfold server.eventStats at h1 h2
  cases hsel : server.selectTeamMatches ms rs <;> rw [hsel] at h1 h2
  · exact absurd h1 (by simp)
  case some f =>
    simp only [Option.some.injEq] at h1 h2
    have e1 := exceptMap_ok_eq_map _ ({ team := "", summaryStats := [] } : server.teamAnalysis) h1
    have e2 := exceptMap_ok_eq_map _ ({ team := "", summaryStats := [] } : server.teamAnalysis) h2
    rw [e1, e2]
    exact hp.map _

/-- Witness for the amended C9: the two orders of the two-team example are
permutations of each other, so the theorem gives that the outputs are
permutations of each other. -/
theorem C9_witness :
    (["A", "B"] : List String).Perm ["B", "A"] ∧
    ([c9ExA, c9ExB] : List server.teamAnalysis).Perm [c9ExB, c9ExA] :=
  ⟨by decide,
   C9_amended_perm c9ExSchema [c9ExMatch] [] ["A", "B"] ["B", "A"]
     [c9ExA, c9ExB] [c9ExB, c9ExA] (by decide) c9_eval_ab c9_eval_ba⟩

end Peregrine
